import Mathlib

/-!
Verification of the API-collection execution engine
(`backend/apps/api_testing/services/executor.py` and
`backend/apps/api_testing/models.py`).

The Python service is shallowly embedded: JSON data is an inductive type,
dicts are association lists (Python dicts have unique keys and preserve
insertion order), the HTTP transport and the credential decryption are
inputs to the embedded functions (an `Exchange` outcome, respectively an
`Except` value), and Python exceptions are `Except` / `Option` results.
-/

namespace ManFlow

/-- JSON values, as produced by `response.json()` / stored in `JSONField`s.
Python `None` and JSON `null` are both `Json.null`. -/
inductive Json where
  | null : Json
  | bool (b : Bool) : Json
  | num (n : Int) : Json
  | str (s : String) : Json
  | arr (elems : List Json) : Json
  | obj (fields : List (String × Json)) : Json

mutual

/-- Python `==` on JSON values: lists compare element-wise in order, dicts
compare as mappings (same key set, equal value per key — Python dicts have
unique keys). -/
def Json.beq : Json → Json → Bool
  | .null, .null => true
  | .bool a, .bool b => a == b
  | .num a, .num b => a == b
  | .str a, .str b => a == b
  | .arr xs, .arr ys => Json.beqList xs ys
  | .obj xs, .obj ys => xs.length == ys.length && Json.beqObj xs ys
  | _, _ => false

/-- Element-wise Python `==` on JSON lists. -/
def Json.beqList : List Json → List Json → Bool
  | [], [] => true
  | x :: xs, y :: ys => Json.beq x y && Json.beqList xs ys
  | _, _ => false

/-- Every key of the first dict is present in the second with a `==` value. -/
def Json.beqObj : List (String × Json) → List (String × Json) → Bool
  | [], _ => true
  | (k, v) :: rest, ys =>
    (match ys.lookup k with
     | some w => Json.beq v w
     | none => false) && Json.beqObj rest ys

end

/-- `ExecutionResult.Status` from `models.py`. -/
inductive ExecStatus where
  | success
  | failed
  | error
  | timeout
  | skipped
deriving DecidableEq, Repr

/-- `ExecutionRun.Status` from `models.py`. -/
inductive RunStatus where
  | pending
  | running
  | completed
  | partialFailure
  | failed
  | cancelled
deriving DecidableEq, Repr

/-- `APIExecutionService.SENSITIVE_HEADERS` (executor.py lines 124-127). -/
def SENSITIVE_HEADERS : List String :=
  ["authorization", "x-api-key", "api-key", "token",
   "x-auth-token", "cookie", "x-access-token", "x-secret"]

/-- Python `str.lower()`, ASCII case folding (header names and the
sensitive-header list are ASCII). -/
def lower (s : String) : String := String.mk (s.data.map Char.toLower)

/-- `APIExecutionService.mask_headers` (executor.py lines 448-464).
Iterates the header dict; a key whose lowercase form is in
`SENSITIVE_HEADERS` gets the fixed mask value, every other key keeps its
value. -/
def mask_headers (headers : List (String × String)) : List (String × String) :=
  headers.map fun kv =>
    if SENSITIVE_HEADERS.contains (lower kv.1) then (kv.1, "***MASKED***")
    else (kv.1, kv.2)

/-- `ExecutionRun.mark_completed` (models.py lines 632-643): the terminal
status as a function of the two counters. -/
def mark_completed_status (successful_count failed_count : Nat) : RunStatus :=
  if failed_count = 0 then RunStatus.completed
  else if successful_count = 0 then RunStatus.failed
  else RunStatus.partialFailure

/-! ## Retry loop (`execute_with_retry`, executor.py lines 729-774)

`execute_single_api` never raises; its result's status is one of
success / failed / error / timeout, and its `retry_attempt` field is the
attempt index it was called with.  The loop below is parameterised by the
status each attempt would produce (`outcome i` = status of attempt `i`),
standing for the HTTP transport.  The returned pair is the last attempt's
(status, retry_attempt) together with the number of attempts performed. -/

/-- The (status, retry_attempt) pair of an attempt's result. -/
structure AttemptResult where
  status : ExecStatus
  retry_attempt : Nat
deriving DecidableEq, Repr

/-- The `for attempt in range(max_retries + 1)` loop of `execute_with_retry`,
started at attempt index `attempt` with `remaining` further indices available.
Returns the result returned by the Python loop and the number of attempts
performed. -/
def retry_from (outcome : Nat → ExecStatus) (attempt : Nat) :
    Nat → AttemptResult × Nat
  | 0 => (⟨outcome attempt, attempt⟩, 1)
  | remaining + 1 =>
    let s := outcome attempt
    if s = ExecStatus.success then (⟨s, attempt⟩, 1)
    else if s = ExecStatus.timeout ∨ s = ExecStatus.error then
      let r := retry_from outcome (attempt + 1) remaining
      (r.1, r.2 + 1)
    else (⟨s, attempt⟩, 1)

/-- `APIExecutionService.execute_with_retry` (executor.py lines 729-774),
`retry_count` playing `endpoint.retry_count or 0`. -/
def execute_with_retry (outcome : Nat → ExecStatus) (retry_count : Nat) :
    AttemptResult × Nat :=
  retry_from outcome 0 retry_count

/-! ## Collection orchestration (`execute_collection`, executor.py lines 780-902)

Endpoints are taken already in `sort_order` (that is what
`collection.get_ordered_endpoints()` returns, models.py lines 122-124).
The status `execute_with_retry` would yield for an endpoint is supplied by
an oracle `outcome : Nat → ExecStatus` keyed by the endpoint id, standing
for the HTTP transport. -/

/-- The part of `APIEndpoint` the orchestration loop reads. -/
structure Endpoint where
  id : Nat
  depends_on_id : Option Nat := none
deriving DecidableEq, Repr

/-- The loop-local state of `execute_collection`: the three counters, the
two dependency-tracking sets, and the `ExecutionResult` records saved so
far (endpoint id, status, error_message). -/
structure RunState where
  successful_count : Nat := 0
  failed_count : Nat := 0
  skipped_count : Nat := 0
  completed_endpoints : List Nat := []
  failed_endpoints : List Nat := []
  results : List (Nat × ExecStatus × String) := []
deriving DecidableEq, Repr

/-- `APIExecutionService._save_skipped_result` (executor.py lines 943-968)
followed by the `skipped_count += 1` of the calling branch. -/
def save_skipped (st : RunState) (ep : Endpoint) (reason : String) : RunState :=
  { st with
    results := st.results ++ [(ep.id, ExecStatus.skipped, reason)],
    skipped_count := st.skipped_count + 1 }

/-- The execute-save-count part of one loop iteration (executor.py lines
872-884): run the endpoint, save its result, then bump exactly one counter
and the matching dependency set. -/
def exec_step (outcome : Nat → ExecStatus) (st : RunState) (ep : Endpoint) :
    RunState :=
  let s := outcome ep.id
  let st := { st with results := st.results ++ [(ep.id, s, "")] }
  if s = ExecStatus.success then
    { st with
      successful_count := st.successful_count + 1,
      completed_endpoints := st.completed_endpoints ++ [ep.id] }
  else
    { st with
      failed_count := st.failed_count + 1,
      failed_endpoints := st.failed_endpoints ++ [ep.id] }

/-- One iteration of the endpoint loop (executor.py lines 852-884): the
dependency check, else execution. -/
def process_endpoint (outcome : Nat → ExecStatus) (st : RunState)
    (ep : Endpoint) : RunState :=
  match ep.depends_on_id with
  | some d =>
    if st.failed_endpoints.contains d then
      save_skipped st ep "Skipped: dependency failed"
    else if ! st.completed_endpoints.contains d then
      save_skipped st ep "Skipped: dependency not executed"
    else exec_step outcome st ep
  | none => exec_step outcome st ep

/-- The fields of the persisted `ExecutionRun` (plus its saved results)
observable after `execute_collection` returns. -/
structure RunRecord where
  total_apis : Nat
  successful_count : Nat
  failed_count : Nat
  skipped_count : Nat
  status : RunStatus
  results : List (Nat × ExecStatus × String)
deriving DecidableEq, Repr

/-- `execute_collection` when the loop completes without an uncaught
exception: fold the loop over all endpoints, then the `finally` block
copies the counters into the run and calls `mark_completed`. -/
def run_collection (outcome : Nat → ExecStatus) (endpoints : List Endpoint) :
    RunRecord :=
  let st := endpoints.foldl (process_endpoint outcome) {}
  { total_apis := endpoints.length,
    successful_count := st.successful_count,
    failed_count := st.failed_count,
    skipped_count := st.skipped_count,
    status := mark_completed_status st.successful_count st.failed_count,
    results := st.results }

/-- `execute_collection` when an uncaught exception interrupts the loop
after the first `k` endpoints were fully processed (executor.py lines
890-900): the `except` block overwrites `skipped_count` with
`len(endpoints) - successful_count - failed_count`, and the `finally`
block still persists the counters and calls `mark_completed`.  No result
records are written for the endpoints the loop never reached. -/
def run_collection_interrupted (outcome : Nat → ExecStatus)
    (endpoints : List Endpoint) (k : Nat) : RunRecord :=
  let st := (endpoints.take k).foldl (process_endpoint outcome) {}
  { total_apis := endpoints.length,
    successful_count := st.successful_count,
    failed_count := st.failed_count,
    skipped_count := endpoints.length - st.successful_count - st.failed_count,
    status := mark_completed_status st.successful_count st.failed_count,
    results := st.results }

/-! ## Variable substitution (`substitute_variables`, executor.py lines 161-190)

`re.sub(r'\{\{(\w+)\}\}', replace, text)` scans left to right; at each
position it tries to match two braces, a maximal non-empty run of word
characters, then two braces.  (With `}}` following, the greedy `\w+`
cannot backtrack into a successful shorter match, so the maximal run is
the only candidate.)  On a match, the replacement is the looked-up value
when the lookup succeeds and the matched text itself otherwise; on no
match the scanner advances one character. -/

/-- A regex `\w` character (ASCII range, which covers all header/test
identifiers): letter, digit or underscore. -/
def isWordChar (c : Char) : Bool :=
  c.isAlpha || c.isDigit || c = '_'

/-- Try to match `\{\{(\w+)\}\}` at the head of the character list;
on success return the captured identifier and the characters after the
match. -/
def parse_placeholder : List Char → Option (List Char × List Char)
  | '{' :: '{' :: cs =>
    let run := cs.takeWhile isWordChar
    match cs.drop run.length with
    | '}' :: '}' :: tail => if run.isEmpty then none else some (run, tail)
    | _ => none
  | _ => none

theorem parse_placeholder_shrinks {cs run tail : List Char}
    (h : parse_placeholder cs = some (run, tail)) :
    tail.length < cs.length := by
  match cs with
  | [] => simp [parse_placeholder] at h
  | [c] =>
    unfold parse_placeholder at h
    split at h <;> simp_all
  | c1 :: c2 :: rest =>
    unfold parse_placeholder at h
    split at h
    next cs' heq =>
      obtain ⟨h1, h2⟩ : c1 = '{' ∧ c2 = '{' ∧ rest = cs' := by
        injection heq with e1 e2; injection e2 with e2 e3; exact ⟨e1, e2, e3⟩
      dsimp only at h
      split at h
      next tail' hdrop =>
        have hlen : tail'.length + 2 =
            (cs'.drop (cs'.takeWhile isWordChar).length).length := by
          rw [hdrop]; simp
        have hle : (cs'.drop (cs'.takeWhile isWordChar).length).length ≤
            cs'.length := by
          simp [List.length_drop]
        split at h
        · exact absurd h (by simp)
        · obtain ⟨-, htail⟩ : run = cs'.takeWhile isWordChar ∧
              tail = tail' := by
            injection h with h'; injection h' with e1 e2; exact ⟨e1.symm, e2.symm⟩
          subst htail
          simp only [List.length_cons, h2.2]
          omega
      next => exact absurd h (by simp)
    next => exact absurd h (by simp)

/-- The `re.sub` scan of `substitute_variables`, over the character list of
the text, parameterised by the variable lookup.  `fuel` is a structural
termination bound; any `fuel ≥` the list length gives the scan's value
(`parse_placeholder_shrinks`), and the zero-fuel non-empty case is never
reached from `subst_chars`. -/
def subst_chars_fuel (lk : String → Option String) : Nat → List Char → List Char
  | _, [] => []
  | 0, _ :: _ => []
  | fuel + 1, c :: cs =>
    match parse_placeholder (c :: cs) with
    | some (run, tail) =>
      (match lk (String.mk run) with
       | some v => v.data
       | Option.none => '{' :: '{' :: run ++ '}' :: '}' :: []) ++
      subst_chars_fuel lk fuel tail
    | Option.none => c :: subst_chars_fuel lk fuel cs

/-- The `re.sub` scan of `substitute_variables`. -/
def subst_chars (lk : String → Option String) (l : List Char) : List Char :=
  subst_chars_fuel lk l.length l

/-- `ExecutionContext` (executor.py lines 45-81): the two variable maps,
with string values (the engine substitutes `str(value)`; the string form
is taken as the value itself). -/
structure ExecutionContext where
  environment : List (String × String) := []
  extracted_variables : List (String × String) := []

/-- `ExecutionContext.get_variable` (executor.py lines 69-73): the
extracted-variables map shadows the environment map. -/
def get_variable (ctx : ExecutionContext) (key : String) : Option String :=
  if (ctx.extracted_variables.map Prod.fst).contains key then
    ctx.extracted_variables.lookup key
  else ctx.environment.lookup key

/-- `APIExecutionService.substitute_variables` (executor.py lines 161-190). -/
def substitute_variables (text : String) (ctx : ExecutionContext) : String :=
  String.mk (subst_chars (get_variable ctx) text.data)

/-! ## JSON path extraction (`extract_json_path`, executor.py lines 480-515)

The function returns Python `None` (= `Json.null`) on a missing / unusable
path.  Two statements can raise: `int(...)` on a malformed index substring
(`ValueError`) and `current[index]` on a negative index out of range
(`IndexError`); an `Except.error` models an escaping exception. -/

/-- Python exceptions that can escape `extract_json_path`. -/
inductive PyErr where
  | valueError (msg : String)
  | indexError (msg : String)
deriving DecidableEq, Repr

/-- The exception's type name, `type(e).__name__`. -/
def PyErr.type_name : PyErr → String
  | .valueError _ => "ValueError"
  | .indexError _ => "IndexError"

/-- Digits of a decimal literal to a natural number. -/
def digitsToNat (ds : List Char) : Nat :=
  ds.foldl (fun acc c => acc * 10 + (c.toNat - '0'.toNat)) 0

/-- The whitespace stripping Python `int()` applies to its argument. -/
def pyStrip (cs : List Char) : List Char :=
  ((cs.dropWhile Char.isWhitespace).reverse.dropWhile Char.isWhitespace).reverse

/-- The (digit characters, sign) pair of an `int()` argument after
stripping and sign handling. -/
def pyIntBody (cs : List Char) : List Char × Int :=
  if (pyStrip cs).head? = some '-' then ((pyStrip cs).tail, -1)
  else if (pyStrip cs).head? = some '+' then ((pyStrip cs).tail, 1)
  else (pyStrip cs, 1)

/-- Python `int(s)` on the index substring (given as its characters):
optional surrounding whitespace, optional sign, one or more digits;
anything else raises `ValueError`. -/
def pyInt (cs : List Char) : Except PyErr Int :=
  if (pyIntBody cs).1 ≠ [] ∧ (pyIntBody cs).1.all Char.isDigit then
    Except.ok ((pyIntBody cs).2 * (digitsToNat (pyIntBody cs).1 : Int))
  else
    Except.error (PyErr.valueError
      ("invalid literal for int() with base 10: " ++ String.mk cs))

/-- Python `xs[i]` on a list, `i` a possibly negative index:
negative indices count from the end; out of range raises `IndexError`. -/
def pyIndex (xs : List Json) (i : Int) : Except PyErr Json :=
  let actual : Int := if i < 0 then i + xs.length else i
  if h : 0 ≤ actual ∧ actual.toNat < xs.length then
    Except.ok (xs.get ⟨actual.toNat, h.2⟩)
  else Except.error (PyErr.indexError "list index out of range")

/-- The `for part in parts` loop of `extract_json_path`. -/
def extract_loop : Json → List String → Except PyErr Json
  | current, [] => Except.ok current
  | current, part :: rest =>
    let pc := part.data
    if pc.contains '[' && pc.contains ']' then
      -- key = part[:part.index('[')]
      -- index = int(part[part.index('[')+1 : part.index(']')])
      let i := pc.findIdx (· = '[')
      let j := pc.findIdx (· = ']')
      let key := String.mk (pc.take i)
      match pyInt ((pc.drop (i + 1)).take (j - (i + 1))) with
      | Except.error e => Except.error e
      | Except.ok index =>
        -- if key and isinstance(current, dict): current = current.get(key, [])
        let cur :=
          match current with
          | Json.obj fields =>
            if key ≠ "" then (fields.lookup key).getD (Json.arr []) else current
          | _ => current
        -- if isinstance(current, list) and len(current) > index: ... else None
        match cur with
        | Json.arr xs =>
          if (xs.length : Int) > index then
            match pyIndex xs index with
            | Except.error e => Except.error e
            | Except.ok x => extract_loop x rest
          else Except.ok Json.null
        | _ => Except.ok Json.null
    else
      match current with
      | Json.obj fields => extract_loop ((fields.lookup part).getD Json.null) rest
      | _ => Except.ok Json.null

/-- `path.split('.')`, accumulator over the characters. -/
def split_dot_aux (acc : List Char) : List Char → List String
  | [] => [String.mk acc.reverse]
  | c :: cs =>
    if c = '.' then String.mk acc.reverse :: split_dot_aux [] cs
    else split_dot_aux (c :: acc) cs

/-- Python `s.split('.')`. -/
def split_dot (s : String) : List String := split_dot_aux [] s.data

/-- `APIExecutionService.extract_json_path` (executor.py lines 480-515). -/
def extract_json_path (data : Json) (path : String) : Except PyErr Json :=
  if path = "" || data.beq Json.null then Except.ok Json.null
  else extract_loop data (split_dot path)

/-- A path segment whose bracketed index substring, if any, parses as an
int — processing it cannot raise `ValueError`. -/
def segment_index_ok (part : String) : Bool :=
  if part.data.contains '[' && part.data.contains ']' then
    match pyInt ((part.data.drop (part.data.findIdx (· = '[') + 1)).take
        (part.data.findIdx (· = ']') - (part.data.findIdx (· = '[') + 1))) with
    | Except.ok _ => true
    | Except.error _ => false
  else true

/-! ## Credential adapter (`build_auth_headers` / `build_auth_query_params`,
executor.py lines 230-317)

`credential.get_credentials()` decrypts the Fernet blob (models.py lines
470-483); the decryption is external to the engine, so its outcome is an
input: either the decrypted credentials dict or the exception it raised.
The embedded functions also return the list of log messages the adapter
emits, so that what gets logged is part of the verified statement. -/

/-- An arbitrary raised exception, as the adapter can observe it:
`type(e).__name__` and `str(e)`. -/
structure ExnInfo where
  type_name : String
  message : String
deriving DecidableEq, Repr

/-- `AuthCredential.AuthType` (models.py lines 338-347). -/
inductive AuthType where
  | bearer
  | basic
  | api_key
  | api_key_header
  | api_key_query
  | oauth2
  | custom
  | none
deriving DecidableEq, Repr

/-- The non-secret part of an `AuthCredential` the adapter reads. -/
structure AuthCredential where
  auth_type : AuthType
  header_name : String := "Authorization"
  header_prefix : String := "Bearer"
deriving DecidableEq, Repr

/-- `creds.get(key, default)` on the decrypted dict. -/
def credGet (creds : List (String × String)) (key dflt : String) : String :=
  (creds.lookup key).getD dflt

/-- The base64 alphabet. -/
def base64Chars : List Char :=
  "ABCDEFGHIJKLMNOPQRSTUVWXYZabcdefghijklmnopqrstuvwxyz0123456789+/".data

/-- One base64 output character. -/
def b64char (n : Nat) : Char := base64Chars.getD n 'A'

/-- Standard base64 of a byte list, with `=` padding. -/
def b64encodeBytes : List Nat → List Char
  | [] => []
  | [a] => [b64char (a / 4), b64char (a % 4 * 16), '=', '=']
  | [a, b] => [b64char (a / 4), b64char (a % 4 * 16 + b / 16),
               b64char (b % 16 * 4), '=']
  | a :: b :: c :: rest =>
    b64char (a / 4) :: b64char (a % 4 * 16 + b / 16) ::
    b64char (b % 16 * 4 + c / 64) :: b64char (c % 64) ::
    b64encodeBytes rest

/-- `base64.b64encode(s.encode()).decode()`. -/
def b64encode (s : String) : String :=
  String.mk (b64encodeBytes (s.toUTF8.toList.map UInt8.toNat))

/-- `APIExecutionService.build_auth_headers` (executor.py lines 230-289),
returning the headers and the log lines emitted. -/
def build_auth_headers (credential : Option AuthCredential)
    (decrypt : Except ExnInfo (List (String × String))) :
    List (String × String) × List String :=
  match credential with
  | Option.none => ([], [])
  | some c =>
    match decrypt with
    | Except.error e =>
      ([], ["Failed to decrypt credentials: " ++ e.type_name])
    | Except.ok creds =>
      let headers :=
        match c.auth_type with
        | AuthType.bearer =>
          let tok := credGet creds "token" ""
          let pfx := if AuthCredential.header_prefix c = "" then "Bearer"
                     else AuthCredential.header_prefix c
          let hn := if c.header_name = "" then "Authorization" else c.header_name
          [(hn, (pfx ++ " " ++ tok).trim)]
        | AuthType.basic =>
          let username := credGet creds "username" ""
          let password := credGet creds "password" ""
          [("Authorization", "Basic " ++ b64encode (username ++ ":" ++ password))]
        | AuthType.api_key =>
          [(credGet creds "key_name" "X-API-Key", credGet creds "api_key" "")]
        | AuthType.api_key_header =>
          [(credGet creds "key_name" "X-API-Key", credGet creds "api_key" "")]
        | AuthType.oauth2 =>
          [("Authorization", "Bearer " ++ credGet creds "access_token" "")]
        | AuthType.custom =>
          let tok := credGet creds "token" ""
          let hn := if c.header_name = "" then "Authorization" else c.header_name
          let pfx := if AuthCredential.header_prefix c = "" then ""
                     else AuthCredential.header_prefix c
          if pfx ≠ "" then [(hn, (pfx ++ " " ++ tok).trim)] else [(hn, tok)]
        | AuthType.none => []
        | AuthType.api_key_query => []
      (headers, [])

/-- `APIExecutionService.build_auth_query_params` (executor.py lines
291-317), returning the query params and the log lines emitted. -/
def build_auth_query_params (credential : Option AuthCredential)
    (decrypt : Except ExnInfo (List (String × String))) :
    List (String × String) × List String :=
  match credential with
  | Option.none => ([], [])
  | some c =>
    if c.auth_type ≠ AuthType.api_key_query then ([], [])
    else
      match decrypt with
      | Except.ok creds =>
        ([(credGet creds "key_name" "api_key", credGet creds "api_key" "")], [])
      | Except.error e =>
        ([], ["Failed to decrypt credentials: " ++ e.type_name])

/-! ## Response validation (`validate_response`, executor.py lines 548-609) -/

/-- One entry of `endpoint.expected_response_contains`: a JSON dict of
path-value pairs, a bare path string, or any other JSON value (which the
loop ignores: it is neither a `dict` nor a `str`). -/
inductive ContainsCheck where
  | kvmap (pairs : List (String × Json))
  | key (path : String)
  | other (v : Json)

/-- One itemized assertion record appended by `validate_response`. -/
inductive AssertionRecord where
  | status_code (expected actual : Nat) (passed : Bool)
  | response_contains (path : String) (expected actual : Json) (passed : Bool)
  | key_exists (path : String) (passed : Bool)

/-- The validation-related fields of `APIEndpoint`. -/
structure EndpointValidation where
  expected_status_code : Option Nat := Option.none
  expected_response_contains : List ContainsCheck := []

/-- The inner `for key, value in expected.items()` loop of
`validate_response`: one `response_contains` assertion per pair.
An exception from the path extraction escapes. -/
def validate_pairs (response : Json) :
    List (String × Json) → Except PyErr (Bool × List AssertionRecord)
  | [] => Except.ok (true, [])
  | (key, value) :: rest =>
    match extract_json_path response key with
    | Except.error e => Except.error e
    | Except.ok actual =>
      let passed := actual.beq value
      match validate_pairs response rest with
      | Except.error e => Except.error e
      | Except.ok (restPassed, restRecords) =>
        Except.ok (passed && restPassed,
          AssertionRecord.response_contains key value actual passed :: restRecords)

/-- The `for expected in endpoint.expected_response_contains` loop of
`validate_response`. -/
def validate_contains (response : Json) :
    List ContainsCheck → Except PyErr (Bool × List AssertionRecord)
  | [] => Except.ok (true, [])
  | check :: rest =>
    let this :=
      match check with
      | ContainsCheck.kvmap pairs => validate_pairs response pairs
      | ContainsCheck.key path =>
        match extract_json_path response path with
        | Except.error e => Except.error e
        | Except.ok actual =>
          let passed := ! actual.beq Json.null
          Except.ok (passed, [AssertionRecord.key_exists path passed])
      | ContainsCheck.other _ => Except.ok (true, [])
    match this with
    | Except.error e => Except.error e
    | Except.ok (p1, a1) =>
      match validate_contains response rest with
      | Except.error e => Except.error e
      | Except.ok (p2, a2) => Except.ok (p1 && p2, a1 ++ a2)

/-- `APIExecutionService.validate_response` (executor.py lines 548-609):
the overall verdict is the conjunction of every assertion, and the
records appear in insertion order.  `if endpoint.expected_status_code:`
is Python truthiness, so `None` and `0` both skip the status check. -/
def validate_response (v : EndpointValidation) (status_code : Nat)
    (response : Json) : Except PyErr (Bool × List AssertionRecord) :=
  let (p1, a1) : Bool × List AssertionRecord :=
    match v.expected_status_code with
    | some expected =>
      if expected = 0 then (true, [])
      else (status_code == expected,
        [AssertionRecord.status_code expected status_code (status_code == expected)])
    | Option.none => (true, [])
  match validate_contains response v.expected_response_contains with
  | Except.error e => Except.error e
  | Except.ok (p2, a2) => Except.ok (p1 && p2, a1 ++ a2)

/-! ## Single call execution (`execute_single_api`, executor.py lines 615-727)

The HTTP transport is external: an `Exchange` value says how
`self.session.request(...)` ended — a completed exchange with a status
code and parsed body, or one of the exception classes the handlers at
lines 703-725 distinguish.  (Python dispatches to the first matching
`except` clause; the constructor records which clause that is: `Timeout`
and `ConnectionError` are the subclasses of `RequestException` caught
before it.)  A `ValueError`/`IndexError` escaping validation is caught by
the generic `except Exception` handler. -/

/-- How the HTTP request ended, as far as the handlers can tell. -/
inductive Exchange where
  | completed (status_code : Nat) (response : Json)
  | timeoutExn
  | connectionError (msg : String)
  | requestExn (type_name msg : String)
  | otherExn (type_name msg : String)

/-- The classification-relevant fields of `ExecutionResultData`. -/
structure SingleResult where
  status : ExecStatus := ExecStatus.success
  error_type : String := ""
  error_message : String := ""
  assertions_passed : Bool := true
  assertion_details : List AssertionRecord := []
  retry_attempt : Nat := 0

/-- `APIExecutionService.execute_single_api` (executor.py lines 615-727):
outcome classification of one attempt.  `timeout_seconds` is
`endpoint.timeout_seconds` (used in the timeout message). -/
def execute_single_api (v : EndpointValidation) (timeout_seconds : Nat)
    (exch : Exchange) (retry_attempt : Nat) : SingleResult :=
  match exch with
  | Exchange.completed code response =>
    match validate_response v code response with
    | Except.ok (passed, details) =>
      { status :=
          if 400 ≤ code then ExecStatus.failed
          else if ! passed then ExecStatus.failed
          else ExecStatus.success,
        assertions_passed := passed,
        assertion_details := details,
        retry_attempt := retry_attempt }
    | Except.error e =>
      { status := ExecStatus.error,
        error_type := PyErr.type_name e,
        error_message := "Unexpected error: " ++
          (match e with | PyErr.valueError m => m | PyErr.indexError m => m),
        retry_attempt := retry_attempt }
  | Exchange.timeoutExn =>
    { status := ExecStatus.timeout,
      error_type := "Timeout",
      error_message := "Request timed out after " ++ toString timeout_seconds ++ "s",
      retry_attempt := retry_attempt }
  | Exchange.connectionError msg =>
    { status := ExecStatus.error,
      error_type := "ConnectionError",
      error_message := "Failed to connect: " ++ msg,
      retry_attempt := retry_attempt }
  | Exchange.requestExn type_name msg =>
    { status := ExecStatus.error,
      error_type := type_name,
      error_message := msg,
      retry_attempt := retry_attempt }
  | Exchange.otherExn type_name msg =>
    { status := ExecStatus.error,
      error_type := type_name,
      error_message := "Unexpected error: " ++ msg,
      retry_attempt := retry_attempt }

end ManFlow

namespace ManFlow

/-- C1 counterexample: the code's `SENSITIVE_HEADERS` has no `set-cookie`
entry, so a `Set-Cookie` request header passes through `mask_headers`
unmasked. -/
theorem mask_headers_set_cookie_unmasked :
    mask_headers [("Set-Cookie", "sessionid=abc")] =
      [("Set-Cookie", "sessionid=abc")]
    ∧ lower "Set-Cookie" = "set-cookie"
    ∧ ("sessionid=abc" : String) ≠ "***MASKED***" := by
  refine ⟨by decide, by decide, by decide⟩

/-- C1 (amended): `mask_headers` masks exactly the keys whose lowercase
form is in the code's eight-entry `SENSITIVE_HEADERS` list (which has no
`set-cookie`), keeps every other value, and preserves the key sequence. -/
theorem mask_headers_masks_exactly_sensitive :
    SENSITIVE_HEADERS = ["authorization", "x-api-key", "api-key", "token",
      "x-auth-token", "cookie", "x-access-token", "x-secret"]
    ∧ (∀ headers : List (String × String),
        (mask_headers headers).map Prod.fst = headers.map Prod.fst)
    ∧ (∀ (headers : List (String × String)) (k v : String), (k, v) ∈ headers →
        (lower k ∈ SENSITIVE_HEADERS →
          (k, "***MASKED***") ∈ mask_headers headers)
        ∧ (lower k ∉ SENSITIVE_HEADERS →
          (k, v) ∈ mask_headers headers))
    ∧ (∀ (headers : List (String × String)) (k v : String),
        (k, v) ∈ mask_headers headers →
        (lower k ∈ SENSITIVE_HEADERS ∧ v = "***MASKED***")
        ∨ (lower k ∉ SENSITIVE_HEADERS ∧ (k, v) ∈ headers)) := by
  refine ⟨rfl, ?_, ?_, ?_⟩
  · intro headers
    unfold mask_headers
    rw [List.map_map]
    have hf : (Prod.fst ∘ fun kv : String × String =>
        if SENSITIVE_HEADERS.contains (lower kv.1) then (kv.1, "***MASKED***")
        else (kv.1, kv.2)) = Prod.fst := by
      funext kv
      simp only [Function.comp_apply, apply_ite Prod.fst, ite_self]
    rw [hf]
  · intro headers k v hkv
    have hmem := List.mem_map_of_mem
      (fun kv : String × String =>
        if SENSITIVE_HEADERS.contains (lower kv.1) then (kv.1, "***MASKED***")
        else (kv.1, kv.2)) hkv
    constructor
    · intro hc
      have hv : (fun kv : String × String =>
          if SENSITIVE_HEADERS.contains (lower kv.1) then (kv.1, "***MASKED***")
          else (kv.1, kv.2)) (k, v) = (k, "***MASKED***") := by
        simp [hc]
      exact hv ▸ hmem
    · intro hc
      have hv : (fun kv : String × String =>
          if SENSITIVE_HEADERS.contains (lower kv.1) then (kv.1, "***MASKED***")
          else (kv.1, kv.2)) (k, v) = (k, v) := by
        simp [hc]
      exact hv ▸ hmem
  · intro headers k v hkv
    simp only [mask_headers, List.mem_map] at hkv
    obtain ⟨⟨k0, v0⟩, hmem, heq⟩ := hkv
    by_cases hc : lower k0 ∈ SENSITIVE_HEADERS
    · left
      simp only [List.elem_iff.mpr hc, if_true] at heq
      injection heq with h1 h2
      subst h1; subst h2
      exact ⟨hc, rfl⟩
    · right
      have hb : SENSITIVE_HEADERS.contains (lower k0) = false := by
        rw [← Bool.not_eq_true]
        intro hcontra
        exact hc (List.elem_iff.mp hcontra)
      simp only [hb, Bool.false_eq_true, if_false] at heq
      injection heq with h1 h2
      subst h1; subst h2
      exact ⟨hc, hmem⟩

/-- C4: the terminal status of a run is the pure function
`mark_completed_status` of the two counters — `completed` when no failure,
`failed` when additionally no success, else `partial_failure` — and both
the normal and the interrupted finalization paths of `execute_collection`
set the status through it. -/
theorem final_status_derivation :
    (∀ successful failed : Nat,
      (failed = 0 → mark_completed_status successful failed = RunStatus.completed)
      ∧ (failed ≠ 0 → successful = 0 →
          mark_completed_status successful failed = RunStatus.failed)
      ∧ (failed ≠ 0 → successful ≠ 0 →
          mark_completed_status successful failed = RunStatus.partialFailure))
    ∧ mark_completed_status 5 0 = RunStatus.completed
    ∧ mark_completed_status 0 5 = RunStatus.failed
    ∧ mark_completed_status 3 2 = RunStatus.partialFailure
    ∧ (∀ (outcome : Nat → ExecStatus) (endpoints : List Endpoint),
        (run_collection outcome endpoints).status =
          mark_completed_status (run_collection outcome endpoints).successful_count
            (run_collection outcome endpoints).failed_count)
    ∧ (∀ (outcome : Nat → ExecStatus) (endpoints : List Endpoint) (k : Nat),
        (run_collection_interrupted outcome endpoints k).status =
          mark_completed_status
            (run_collection_interrupted outcome endpoints k).successful_count
            (run_collection_interrupted outcome endpoints k).failed_count) := by
  refine ⟨?_, by decide, by decide, by decide, ?_, ?_⟩
  · intro successful failed
    refine ⟨?_, ?_, ?_⟩
    · intro h; simp [mark_completed_status, h]
    · intro h1 h2; simp [mark_completed_status, h1, h2]
    · intro h1 h2; simp [mark_completed_status, h1, h2]
  · intro outcome endpoints; rfl
  · intro outcome endpoints k; rfl

end ManFlow
namespace ManFlow

/-- Full characterization of the `execute_with_retry` loop started at any
attempt index: number of attempts, the returned result, which attempts can
precede a re-attempt, and what an early return implies. -/
theorem retry_from_spec (outcome : Nat → ExecStatus) :
    ∀ (remaining attempt : Nat),
      1 ≤ (retry_from outcome attempt remaining).2
      ∧ (retry_from outcome attempt remaining).2 ≤ remaining + 1
      ∧ (retry_from outcome attempt remaining).1.retry_attempt
          = attempt + ((retry_from outcome attempt remaining).2 - 1)
      ∧ (retry_from outcome attempt remaining).1.status
          = outcome (attempt + ((retry_from outcome attempt remaining).2 - 1))
      ∧ (∀ j, j + 1 < (retry_from outcome attempt remaining).2 →
          outcome (attempt + j) = ExecStatus.timeout
          ∨ outcome (attempt + j) = ExecStatus.error)
      ∧ ((retry_from outcome attempt remaining).2 ≤ remaining →
          (retry_from outcome attempt remaining).1.status ≠ ExecStatus.timeout
          ∧ (retry_from outcome attempt remaining).1.status ≠ ExecStatus.error) := by
  intro remaining
  induction remaining with
  | zero =>
    intro attempt
    refine ⟨le_refl 1, le_refl 1, by simp [retry_from], by simp [retry_from],
      ?_, ?_⟩
    · intro j hj
      exact absurd hj (by simp [retry_from])
    · intro hle
      exact absurd hle (by simp [retry_from])
  | succ rem ih =>
    intro attempt
    have hunf : retry_from outcome attempt (rem + 1) =
        (if outcome attempt = ExecStatus.success then
          (⟨outcome attempt, attempt⟩, 1)
         else if outcome attempt = ExecStatus.timeout
             ∨ outcome attempt = ExecStatus.error then
           ((retry_from outcome (attempt + 1) rem).1,
            (retry_from outcome (attempt + 1) rem).2 + 1)
         else (⟨outcome attempt, attempt⟩, 1)) := rfl
    rw [hunf]
    by_cases h1 : outcome attempt = ExecStatus.success
    · rw [if_pos h1]
      refine ⟨le_refl 1, by omega, by simp, by simp, ?_, ?_⟩
      · intro j hj
        exact absurd hj (by simp)
      · intro _
        constructor
        · show outcome attempt ≠ ExecStatus.timeout
          simp [h1]
        · show outcome attempt ≠ ExecStatus.error
          simp [h1]
    · rw [if_neg h1]
      by_cases h2 : outcome attempt = ExecStatus.timeout
          ∨ outcome attempt = ExecStatus.error
      · rw [if_pos h2]
        obtain ⟨ih1, ih2, ih3, ih4, ih5, ih6⟩ := ih (attempt + 1)
        refine ⟨?_, ?_, ?_, ?_, ?_, ?_⟩
        · show 1 ≤ (retry_from outcome (attempt + 1) rem).2 + 1
          omega
        · show (retry_from outcome (attempt + 1) rem).2 + 1 ≤ rem + 1 + 1
          omega
        · show (retry_from outcome (attempt + 1) rem).1.retry_attempt
            = attempt + ((retry_from outcome (attempt + 1) rem).2 + 1 - 1)
          rw [ih3]
          omega
        · show (retry_from outcome (attempt + 1) rem).1.status
            = outcome (attempt + ((retry_from outcome (attempt + 1) rem).2 + 1 - 1))
          rw [ih4]
          congr 1
          omega
        · intro j hj
          cases j with
          | zero => simpa using h2
          | succ j' =>
            have hj' : j' + 1 < (retry_from outcome (attempt + 1) rem).2 := by
              have : j' + 1 + 1 < (retry_from outcome (attempt + 1) rem).2 + 1 := hj
              omega
            have harg : attempt + 1 + j' = attempt + (j' + 1) := by omega
            have := ih5 j' hj'
            rw [harg] at this
            exact this
        · intro hle
          have hle' : (retry_from outcome (attempt + 1) rem).2 ≤ rem := by
            have : (retry_from outcome (attempt + 1) rem).2 + 1 ≤ rem + 1 := hle
            omega
          exact ih6 hle'
      · rw [if_neg h2]
        push_neg at h2
        refine ⟨le_refl 1, by omega, by simp, by simp, ?_, ?_⟩
        · intro j hj
          exact absurd hj (by simp)
        · intro _
          exact ⟨h2.1, h2.2⟩

/-- C3: `execute_with_retry` performs between 1 and `retry_count + 1`
attempts; the returned result is the last attempt's, with `retry_attempt`
equal to the number of preceding attempts; every attempt before a
re-attempt ended in `timeout` or `error`; a return before the attempt
budget is exhausted is not a `timeout`/`error` outcome.  With
`retry_count = 2`: all-timeouts gives 3 attempts ending
`(timeout, retry_attempt = 2)`, success on the second attempt gives 2
attempts ending `(success, retry_attempt = 1)`. -/
theorem execute_with_retry_spec :
    (∀ (outcome : Nat → ExecStatus) (retry_count : Nat),
      1 ≤ (execute_with_retry outcome retry_count).2
      ∧ (execute_with_retry outcome retry_count).2 ≤ retry_count + 1
      ∧ (execute_with_retry outcome retry_count).1.retry_attempt
          = (execute_with_retry outcome retry_count).2 - 1
      ∧ (execute_with_retry outcome retry_count).1.status
          = outcome ((execute_with_retry outcome retry_count).2 - 1)
      ∧ (∀ j, j + 1 < (execute_with_retry outcome retry_count).2 →
          outcome j = ExecStatus.timeout ∨ outcome j = ExecStatus.error)
      ∧ ((execute_with_retry outcome retry_count).2 ≤ retry_count →
          (execute_with_retry outcome retry_count).1.status ≠ ExecStatus.timeout
          ∧ (execute_with_retry outcome retry_count).1.status ≠ ExecStatus.error))
    ∧ execute_with_retry (fun _ => ExecStatus.timeout) 2 =
        (⟨ExecStatus.timeout, 2⟩, 3)
    ∧ execute_with_retry
        (fun i => if i = 1 then ExecStatus.success else ExecStatus.timeout) 2 =
        (⟨ExecStatus.success, 1⟩, 2) := by
  refine ⟨?_, by decide, by decide⟩
  intro outcome retry_count
  obtain ⟨h1, h2, h3, h4, h5, h6⟩ := retry_from_spec outcome retry_count 0
  refine ⟨h1, h2, by simpa using h3, by simpa using h4, ?_, h6⟩
  intro j hj
  simpa using h5 j hj

end ManFlow
namespace ManFlow

theorem nat_contains_true {l : List Nat} {a : Nat} (h : a ∈ l) :
    l.contains a = true :=
  List.elem_iff.mpr h

theorem nat_contains_false {l : List Nat} {a : Nat} (h : a ∉ l) :
    l.contains a = false := by
  rw [← Bool.not_eq_true]
  intro hc
  exact h (List.elem_iff.mp hc)

/-- `exec_step` never touches the skipped counter. -/
theorem exec_step_skipped (outcome : Nat → ExecStatus) (st : RunState)
    (ep : Endpoint) :
    (exec_step outcome st ep).skipped_count = st.skipped_count := by
  by_cases h : outcome ep.id = ExecStatus.success <;> simp [exec_step, h]

/-- One loop iteration bumps exactly one of the three counters by one. -/
theorem process_endpoint_counters (outcome : Nat → ExecStatus) (st : RunState)
    (ep : Endpoint) :
    ((process_endpoint outcome st ep).successful_count = st.successful_count + 1
      ∧ (process_endpoint outcome st ep).failed_count = st.failed_count
      ∧ (process_endpoint outcome st ep).skipped_count = st.skipped_count)
    ∨ ((process_endpoint outcome st ep).successful_count = st.successful_count
      ∧ (process_endpoint outcome st ep).failed_count = st.failed_count + 1
      ∧ (process_endpoint outcome st ep).skipped_count = st.skipped_count)
    ∨ ((process_endpoint outcome st ep).successful_count = st.successful_count
      ∧ (process_endpoint outcome st ep).failed_count = st.failed_count
      ∧ (process_endpoint outcome st ep).skipped_count = st.skipped_count + 1) := by
  cases hdep : ep.depends_on_id with
  | none =>
    by_cases h : outcome ep.id = ExecStatus.success
    · left; simp [process_endpoint, hdep, exec_step, h]
    · right; left; simp [process_endpoint, hdep, exec_step, h]
  | some d =>
    by_cases hf : d ∈ st.failed_endpoints
    · right; right; simp [process_endpoint, hdep, hf, save_skipped]
    · by_cases hc : d ∈ st.completed_endpoints
      · by_cases h : outcome ep.id = ExecStatus.success
        · left; simp [process_endpoint, hdep, hf, hc, exec_step, h]
        · right; left; simp [process_endpoint, hdep, hf, hc, exec_step, h]
      · right; right; simp [process_endpoint, hdep, hf, hc, save_skipped]

/-- One loop iteration raises the counter total by exactly one. -/
theorem process_endpoint_sum (outcome : Nat → ExecStatus) (st : RunState)
    (ep : Endpoint) :
    (process_endpoint outcome st ep).successful_count
      + (process_endpoint outcome st ep).failed_count
      + (process_endpoint outcome st ep).skipped_count
    = st.successful_count + st.failed_count + st.skipped_count + 1 := by
  rcases process_endpoint_counters outcome st ep with ⟨a, b, c⟩ | ⟨a, b, c⟩ | ⟨a, b, c⟩ <;>
    omega

/-- Over the whole loop, the counter total grows by the number of
endpoints processed. -/
theorem foldl_counters_sum (outcome : Nat → ExecStatus)
    (eps : List Endpoint) : ∀ st : RunState,
    (eps.foldl (process_endpoint outcome) st).successful_count
      + (eps.foldl (process_endpoint outcome) st).failed_count
      + (eps.foldl (process_endpoint outcome) st).skipped_count
    = st.successful_count + st.failed_count + st.skipped_count + eps.length := by
  induction eps with
  | nil => intro st; simp
  | cons e t ih =>
    intro st
    rw [List.foldl_cons, ih (process_endpoint outcome st e)]
    have := process_endpoint_sum outcome st e
    simp only [List.length_cons]
    omega

/-- C2: an endpoint that declares a dependency is skipped exactly when the
dependency is in the failed set, or not yet in the succeeded set, when the
loop reaches it; the two cases carry the reasons `dependency failed` and
`dependency not executed`; and the A (fails) ← B ← C chain yields
failed=1, skipped=2, successful=0 and terminal status `failed`. -/
theorem dependency_skip_characterization :
    (∀ (outcome : Nat → ExecStatus) (st : RunState) (ep : Endpoint),
      ((process_endpoint outcome st ep).skipped_count = st.skipped_count + 1
        ↔ ∃ d, ep.depends_on_id = some d
            ∧ (d ∈ st.failed_endpoints ∨ d ∉ st.completed_endpoints)))
    ∧ (∀ (outcome : Nat → ExecStatus) (st : RunState) (ep : Endpoint) (d : Nat),
        ep.depends_on_id = some d → d ∈ st.failed_endpoints →
        process_endpoint outcome st ep =
          save_skipped st ep "Skipped: dependency failed")
    ∧ (∀ (outcome : Nat → ExecStatus) (st : RunState) (ep : Endpoint) (d : Nat),
        ep.depends_on_id = some d → d ∉ st.failed_endpoints →
        d ∉ st.completed_endpoints →
        process_endpoint outcome st ep =
          save_skipped st ep "Skipped: dependency not executed")
    ∧ run_collection (fun i => if i = 1 then ExecStatus.failed else ExecStatus.success)
        [⟨1, Option.none⟩, ⟨2, some 1⟩, ⟨3, some 2⟩] =
      { total_apis := 3, successful_count := 0, failed_count := 1,
        skipped_count := 2, status := RunStatus.failed,
        results := [(1, ExecStatus.failed, ""),
          (2, ExecStatus.skipped, "Skipped: dependency failed"),
          (3, ExecStatus.skipped, "Skipped: dependency not executed")] } := by
  refine ⟨?_, ?_, ?_, by decide⟩
  · intro outcome st ep
    cases hdep : ep.depends_on_id with
    | none =>
      constructor
      · intro habs
        have := exec_step_skipped outcome st ep
        simp only [process_endpoint, hdep] at habs
        omega
      · rintro ⟨d, hd, -⟩
        cases hd
    | some d =>
      by_cases hf : d ∈ st.failed_endpoints
      · constructor
        · intro _
          exact ⟨d, rfl, Or.inl hf⟩
        · intro _
          simp [process_endpoint, hdep, hf, save_skipped]
      · by_cases hc : d ∈ st.completed_endpoints
        · constructor
          · intro habs
            simp [process_endpoint, hdep, hf, hc, exec_step_skipped] at habs
          · rintro ⟨d', hd', hcase⟩
            injection hd' with hd'
            subst hd'
            rcases hcase with h | h
            · exact absurd h hf
            · exact absurd hc h
        · constructor
          · intro _
            exact ⟨d, rfl, Or.inr hc⟩
          · intro _
            simp [process_endpoint, hdep, hf, hc, save_skipped]
  · intro outcome st ep d hdep hf
    simp [process_endpoint, hdep, hf, save_skipped]
  · intro outcome st ep d hdep hf hc
    simp [process_endpoint, hdep, hf, hc, save_skipped]

/-- C10: at finalization — loop completed or interrupted — the three
counters partition the endpoint count `total_apis`, and each endpoint the
loop reached moved exactly one counter. -/
theorem run_counters_partition :
    (∀ (outcome : Nat → ExecStatus) (endpoints : List Endpoint),
      (run_collection outcome endpoints).successful_count
        + (run_collection outcome endpoints).failed_count
        + (run_collection outcome endpoints).skipped_count
        = (run_collection outcome endpoints).total_apis
      ∧ (run_collection outcome endpoints).total_apis = endpoints.length)
    ∧ (∀ (outcome : Nat → ExecStatus) (endpoints : List Endpoint) (k : Nat),
      (run_collection_interrupted outcome endpoints k).successful_count
        + (run_collection_interrupted outcome endpoints k).failed_count
        + (run_collection_interrupted outcome endpoints k).skipped_count
        = (run_collection_interrupted outcome endpoints k).total_apis
      ∧ (run_collection_interrupted outcome endpoints k).total_apis
        = endpoints.length)
    ∧ (∀ (outcome : Nat → ExecStatus) (st : RunState) (ep : Endpoint),
      ((process_endpoint outcome st ep).successful_count = st.successful_count + 1
        ∧ (process_endpoint outcome st ep).failed_count = st.failed_count
        ∧ (process_endpoint outcome st ep).skipped_count = st.skipped_count)
      ∨ ((process_endpoint outcome st ep).successful_count = st.successful_count
        ∧ (process_endpoint outcome st ep).failed_count = st.failed_count + 1
        ∧ (process_endpoint outcome st ep).skipped_count = st.skipped_count)
      ∨ ((process_endpoint outcome st ep).successful_count = st.successful_count
        ∧ (process_endpoint outcome st ep).failed_count = st.failed_count
        ∧ (process_endpoint outcome st ep).skipped_count = st.skipped_count + 1)) := by
  refine ⟨?_, ?_, process_endpoint_counters⟩
  · intro outcome endpoints
    have h := foldl_counters_sum outcome endpoints {}
    exact ⟨by simpa using h, rfl⟩
  · intro outcome endpoints k
    have h := foldl_counters_sum outcome (endpoints.take k) {}
    simp only [RunState.successful_count, RunState.failed_count,
      RunState.skipped_count] at h
    have hlen : (endpoints.take k).length ≤ endpoints.length := by
      simp [List.length_take]
    constructor
    · show (endpoints.take k |>.foldl (process_endpoint outcome) {}).successful_count
        + (endpoints.take k |>.foldl (process_endpoint outcome) {}).failed_count
        + (endpoints.length
            - (endpoints.take k |>.foldl (process_endpoint outcome) {}).successful_count
            - (endpoints.take k |>.foldl (process_endpoint outcome) {}).failed_count)
        = endpoints.length
      omega
    · rfl

/-- C8 counterexample: a run of three endpoints interrupted after the
first has only one saved result record, not one per endpoint. -/
theorem interrupted_run_missing_records :
    (run_collection_interrupted (fun _ => ExecStatus.success)
      [⟨1, Option.none⟩, ⟨2, Option.none⟩, ⟨3, Option.none⟩] 1).results =
      [(1, ExecStatus.success, "")]
    ∧ (run_collection_interrupted (fun _ => ExecStatus.success)
      [⟨1, Option.none⟩, ⟨2, Option.none⟩, ⟨3, Option.none⟩] 1).total_apis = 3
    ∧ (1 : Nat) ≠ 3 :=
  ⟨by decide, by decide, by decide⟩

/-- The finalization rule only produces the three terminal statuses. -/
theorem mark_completed_status_terminal (s f : Nat) :
    mark_completed_status s f = RunStatus.completed
    ∨ mark_completed_status s f = RunStatus.failed
    ∨ mark_completed_status s f = RunStatus.partialFailure := by
  unfold mark_completed_status
  split_ifs <;> simp

/-- C8 (amended): an interrupted run is still finalized — its status is
derived from the counters and is terminal, the counters partition
`total_apis` with the unreached endpoints counted as skipped, and the
saved result records are exactly those of the processed prefix (none are
written for unreached endpoints). -/
theorem interrupted_run_finalized :
    ∀ (outcome : Nat → ExecStatus) (endpoints : List Endpoint) (k : Nat),
      (run_collection_interrupted outcome endpoints k).status =
        mark_completed_status
          (run_collection_interrupted outcome endpoints k).successful_count
          (run_collection_interrupted outcome endpoints k).failed_count
      ∧ ((run_collection_interrupted outcome endpoints k).status = RunStatus.completed
        ∨ (run_collection_interrupted outcome endpoints k).status = RunStatus.failed
        ∨ (run_collection_interrupted outcome endpoints k).status = RunStatus.partialFailure)
      ∧ (run_collection_interrupted outcome endpoints k).successful_count
          + (run_collection_interrupted outcome endpoints k).failed_count
          + (run_collection_interrupted outcome endpoints k).skipped_count
        = (run_collection_interrupted outcome endpoints k).total_apis
      ∧ (run_collection_interrupted outcome endpoints k).results =
          (run_collection outcome (endpoints.take k)).results := by
  intro outcome endpoints k
  refine ⟨rfl, ?_, ?_, rfl⟩
  · exact mark_completed_status_terminal _ _
  · have h := foldl_counters_sum outcome (endpoints.take k) {}
    have hlen : (endpoints.take k).length ≤ endpoints.length := by
      simp [List.length_take]
    show (endpoints.take k |>.foldl (process_endpoint outcome) {}).successful_count
      + (endpoints.take k |>.foldl (process_endpoint outcome) {}).failed_count
      + (endpoints.length
          - (endpoints.take k |>.foldl (process_endpoint outcome) {}).successful_count
          - (endpoints.take k |>.foldl (process_endpoint outcome) {}).failed_count)
      = endpoints.length
    simp only [RunState.successful_count, RunState.failed_count,
      RunState.skipped_count] at h
    omega

end ManFlow
namespace ManFlow

/-- C5: classification of one attempt's terminal outcome.  A completed
exchange with status ≥ 400 is `failed` regardless of the assertion verdict
(the concrete conjunct: even a matching `expected_status_code = 404`
passes validation yet yields `failed`); a completed exchange below 400 is
`failed` or `success` by the verdict; the `Timeout` / `ConnectionError` /
other-`RequestException` handlers produce `timeout`/`error` with the
stated error kinds. -/
theorem single_call_classification :
    (∀ (v : EndpointValidation) (ts : Nat) (resp : Json) (ra code : Nat)
        (passed : Bool) (details : List AssertionRecord),
      validate_response v code resp = Except.ok (passed, details) →
        (400 ≤ code →
          (execute_single_api v ts (Exchange.completed code resp) ra).status
            = ExecStatus.failed)
        ∧ (code < 400 → passed = false →
          (execute_single_api v ts (Exchange.completed code resp) ra).status
            = ExecStatus.failed)
        ∧ (code < 400 → passed = true →
          (execute_single_api v ts (Exchange.completed code resp) ra).status
            = ExecStatus.success))
    ∧ (∀ ts ra : Nat,
        validate_response { expected_status_code := some 404 } 404 Json.null
          = Except.ok (true, [AssertionRecord.status_code 404 404 true])
        ∧ (execute_single_api { expected_status_code := some 404 } ts
            (Exchange.completed 404 Json.null) ra).status = ExecStatus.failed)
    ∧ (∀ (v : EndpointValidation) (ts ra : Nat),
        execute_single_api v ts Exchange.timeoutExn ra =
          { status := ExecStatus.timeout, error_type := "Timeout",
            error_message := "Request timed out after " ++ toString ts ++ "s",
            retry_attempt := ra })
    ∧ (∀ (v : EndpointValidation) (ts ra : Nat) (msg : String),
        execute_single_api v ts (Exchange.connectionError msg) ra =
          { status := ExecStatus.error, error_type := "ConnectionError",
            error_message := "Failed to connect: " ++ msg,
            retry_attempt := ra })
    ∧ (∀ (v : EndpointValidation) (ts ra : Nat) (tn msg : String),
        execute_single_api v ts (Exchange.requestExn tn msg) ra =
          { status := ExecStatus.error, error_type := tn,
            error_message := msg, retry_attempt := ra })
    ∧ (∀ (v : EndpointValidation) (ts ra : Nat) (tn msg : String),
        execute_single_api v ts (Exchange.otherExn tn msg) ra =
          { status := ExecStatus.error, error_type := tn,
            error_message := "Unexpected error: " ++ msg,
            retry_attempt := ra }) := by
  refine ⟨?_, ?_, ?_, ?_, ?_, ?_⟩
  · intro v ts resp ra code passed details hv
    refine ⟨?_, ?_, ?_⟩
    · intro h
      simp [execute_single_api, hv, h]
    · intro h hp
      have hn : ¬ 400 ≤ code := by omega
      simp [execute_single_api, hv, hn, hp]
    · intro h hp
      have hn : ¬ 400 ≤ code := by omega
      simp [execute_single_api, hv, hn, hp]
  · intro ts ra
    exact ⟨rfl, rfl⟩
  · intro v ts ra; rfl
  · intro v ts ra msg; rfl
  · intro v ts ra tn msg; rfl
  · intro v ts ra tn msg; rfl

/-- C9: when credential decryption raises, `build_auth_headers` and
`build_auth_query_params` return an empty map (no auth applied, non-fatal)
and log one line holding only the exception's type name — the log is the
same for any two exceptions of the same type, whatever their messages. -/
theorem credential_decrypt_failure_nonfatal :
    (∀ (c : AuthCredential) (e : ExnInfo),
      build_auth_headers (some c) (Except.error e)
        = ([], ["Failed to decrypt credentials: " ++ e.type_name]))
    ∧ (∀ (c : AuthCredential) (e : ExnInfo),
      c.auth_type = AuthType.api_key_query →
      build_auth_query_params (some c) (Except.error e)
        = ([], ["Failed to decrypt credentials: " ++ e.type_name]))
    ∧ (∀ (c : AuthCredential) (e : ExnInfo),
      c.auth_type ≠ AuthType.api_key_query →
      build_auth_query_params (some c) (Except.error e) = ([], []))
    ∧ (∀ (c : AuthCredential) (e1 e2 : ExnInfo),
      e1.type_name = e2.type_name →
      build_auth_headers (some c) (Except.error e1)
        = build_auth_headers (some c) (Except.error e2)
      ∧ build_auth_query_params (some c) (Except.error e1)
        = build_auth_query_params (some c) (Except.error e2)) := by
  refine ⟨?_, ?_, ?_, ?_⟩
  · intro c e; rfl
  · intro c e h
    simp [build_auth_query_params, h]
  · intro c e h
    simp [build_auth_query_params, h]
  · intro c e1 e2 h
    constructor
    · simp [build_auth_headers, h]
    · by_cases hq : c.auth_type = AuthType.api_key_query <;>
        simp [build_auth_query_params, hq, h]

end ManFlow
namespace ManFlow

/-- A run of word characters followed by `'}'` is what the greedy `\w+`
takes. -/
theorem takeWhile_word_append (name tl : List Char)
    (h : name.all isWordChar = true) :
    (name ++ '}' :: tl).takeWhile isWordChar = name := by
  induction name with
  | nil =>
    simp [List.takeWhile_cons, show isWordChar '}' = false from rfl]
  | cons c cs ih =>
    simp only [List.all_cons, Bool.and_eq_true] at h
    simp [List.takeWhile_cons, h.1, ih h.2]

/-- `\{\{(\w+)\}\}` does match at a well-formed placeholder. -/
theorem parse_placeholder_complete (name rest : List Char) (h1 : name ≠ [])
    (h2 : name.all isWordChar = true) :
    parse_placeholder ('{' :: '{' :: (name ++ '}' :: '}' :: rest))
      = some (name, rest) := by
  rcases name with - | ⟨c, cs⟩
  · exact absurd rfl h1
  · have hstep : parse_placeholder ('{' :: '{' :: ((c :: cs) ++ '}' :: '}' :: rest))
        = (match ((c :: cs) ++ '}' :: '}' :: rest).drop
            (((c :: cs) ++ '}' :: '}' :: rest).takeWhile isWordChar).length with
          | '}' :: '}' :: tail =>
            if (((c :: cs) ++ '}' :: '}' :: rest).takeWhile isWordChar).isEmpty
            then none
            else some (((c :: cs) ++ '}' :: '}' :: rest).takeWhile isWordChar, tail)
          | _ => none) := rfl
    rw [hstep, takeWhile_word_append (c :: cs) ('}' :: rest) h2, List.drop_left]
    simp

/-- The scan's value does not depend on the fuel, once the fuel covers the
list length. -/
theorem subst_chars_fuel_irrel (lk : String → Option String) :
    ∀ (f1 : Nat) (l : List Char) (f2 : Nat), l.length ≤ f1 → l.length ≤ f2 →
      subst_chars_fuel lk f1 l = subst_chars_fuel lk f2 l := by
  intro f1
  induction f1 with
  | zero =>
    intro l f2 h1 h2
    have hl : l = [] := List.eq_nil_of_length_eq_zero (Nat.le_zero.mp h1)
    subst hl
    cases f2 <;> rfl
  | succ f ih =>
    intro l f2 h1 h2
    cases l with
    | nil => cases f2 <;> rfl
    | cons c cs =>
      cases f2 with
      | zero =>
        exact absurd h2 (by simp)
      | succ f2' =>
        simp only [List.length_cons] at h1 h2
        cases hp : parse_placeholder (c :: cs) with
        | some pr =>
          obtain ⟨run, tail⟩ := pr
          have htail : tail.length < (c :: cs).length :=
            parse_placeholder_shrinks hp
          simp only [List.length_cons] at htail
          simp only [subst_chars_fuel, hp]
          rw [ih tail f2' (by omega) (by omega)]
        | none =>
          simp only [subst_chars_fuel, hp]
          rw [ih cs f2' (by omega) (by omega)]

/-- The scan at a well-formed placeholder: replace it by the looked-up
value, or keep the matched text, then continue after the match. -/
theorem subst_chars_placeholder (lk : String → Option String)
    (name rest : List Char) (h1 : name ≠ []) (h2 : name.all isWordChar = true) :
    subst_chars lk ('{' :: '{' :: (name ++ '}' :: '}' :: rest)) =
      (match lk (String.mk name) with
       | some v => v.data
       | Option.none => '{' :: '{' :: (name ++ '}' :: '}' :: [])) ++
      subst_chars lk rest := by
  unfold subst_chars
  have hp := parse_placeholder_complete name rest h1 h2
  obtain ⟨f, hf⟩ : ∃ f,
      ('{' :: '{' :: (name ++ '}' :: '}' :: rest)).length = f + 1 :=
    ⟨('{' :: (name ++ '}' :: '}' :: rest)).length, by
      simp [List.length_cons]⟩
  rw [hf]
  simp only [subst_chars_fuel, hp]
  have hfle : rest.length ≤ f := by
    have hlen : ('{' :: '{' :: (name ++ '}' :: '}' :: rest)).length
        = name.length + rest.length + 4 := by
      simp [List.length_cons, List.length_append]
      omega
    omega
  rw [subst_chars_fuel_irrel lk f rest rest.length hfle (le_refl _)]
  simp [List.cons_append]

/-- Key presence in a string-keyed association list's key list is lookup
success. -/
theorem mem_map_fst_iff_lookup_isSome (l : List (String × String)) (k : String) :
    ((l.map Prod.fst).contains k = true) ↔ ((l.lookup k).isSome = true) := by
  induction l with
  | nil => simp [List.lookup]
  | cons p t ih =>
    obtain ⟨k0, v0⟩ := p
    by_cases h : k = k0
    · subst h
      simp [List.lookup]
    · have hb : (k == k0) = false := beq_eq_false_iff_ne.mpr h
      simp [List.lookup, hb, ih, h]

/-- C6: `substitute_variables` replaces every well-formed `{{identifier}}`
whose identifier the context resolves with the resolved value, leaves the
placeholder text unchanged when the lookup fails (not removed, no error),
and the lookup consults the extracted-variables map before the environment
map. -/
theorem variable_substitution_spec :
    (∀ (lk : String → Option String) (name rest : List Char) (v : String),
      name ≠ [] → name.all isWordChar = true → lk (String.mk name) = some v →
      subst_chars lk ('{' :: '{' :: (name ++ '}' :: '}' :: rest))
        = v.data ++ subst_chars lk rest)
    ∧ (∀ (lk : String → Option String) (name rest : List Char),
      name ≠ [] → name.all isWordChar = true →
      lk (String.mk name) = Option.none →
      subst_chars lk ('{' :: '{' :: (name ++ '}' :: '}' :: rest))
        = '{' :: '{' :: (name ++ '}' :: '}' :: subst_chars lk rest))
    ∧ (∀ (ctx : ExecutionContext) (key : String) (v : String),
        ctx.extracted_variables.lookup key = some v →
        get_variable ctx key = some v)
    ∧ (∀ (ctx : ExecutionContext) (key : String),
        ctx.extracted_variables.lookup key = Option.none →
        get_variable ctx key = ctx.environment.lookup key)
    ∧ substitute_variables "Hi {{x}}" ⟨[("x", "Bob")], []⟩ = "Hi Bob"
    ∧ substitute_variables "Hi {{y}}" ⟨[], []⟩ = "Hi {{y}}" := by
  refine ⟨?_, ?_, ?_, ?_, by rfl, by rfl⟩
  · intro lk name rest v h1 h2 hlk
    rw [subst_chars_placeholder lk name rest h1 h2, hlk]
  · intro lk name rest h1 h2 hlk
    rw [subst_chars_placeholder lk name rest h1 h2, hlk]
    simp
  · intro ctx key v h
    unfold get_variable
    have hc : (ctx.extracted_variables.map Prod.fst).contains key = true :=
      (mem_map_fst_iff_lookup_isSome _ _).mpr (by simp [h])
    rw [if_pos hc, h]
  · intro ctx key h
    unfold get_variable
    have hc : (ctx.extracted_variables.map Prod.fst).contains key = false := by
      rw [← Bool.not_eq_true]
      intro hcontra
      have hmem := (mem_map_fst_iff_lookup_isSome _ _).mp hcontra
      rw [h] at hmem
      simp at hmem
    rw [hc]
    simp

end ManFlow
namespace ManFlow

theorem not_mem_of_contains_false {α} [BEq α] [LawfulBEq α] {l : List α}
    {a : α} (h : l.contains a = false) : a ∉ l := by
  intro hm
  have hc : l.contains a = true := List.elem_iff.mpr hm
  rw [hc] at h
  simp at h

/-- A digit character is not whitespace. -/
theorem digit_not_whitespace {c : Char} (h : c.isDigit = true) :
    c.isWhitespace = false := by
  rw [← Bool.not_eq_true]
  intro hw
  simp [Char.isWhitespace] at hw
  rcases hw with ((h1 | h1) | h1) | h1 <;> subst h1 <;>
    exact absurd h (by decide)

/-- A digit character is none of a given list of non-digit characters. -/
theorem digit_ne_of_not_digit {c d : Char} (h : c.isDigit = true)
    (hd : d.isDigit = false) : c ≠ d := by
  intro he
  subst he
  rw [h] at hd
  simp at hd

/-- Whitespace stripping leaves an all-digit head alone. -/
theorem dropWhile_ws_digits (l : List Char)
    (h : ∀ x ∈ l, x.isDigit = true) :
    l.dropWhile Char.isWhitespace = l := by
  cases l with
  | nil => rfl
  | cons c cs =>
    have hc := digit_not_whitespace (h c (List.mem_cons_self c cs))
    simp [List.dropWhile_cons, hc]

/-- `int()` on a non-empty all-digit string succeeds with its value. -/
theorem pyInt_digits (ds : List Char) (h1 : ds ≠ [])
    (h2 : ds.all Char.isDigit = true) :
    pyInt ds = Except.ok (digitsToNat ds : Int) := by
  have hall : ∀ x ∈ ds, x.isDigit = true := by
    intro x hx
    exact List.all_eq_true.mp h2 x hx
  have hstrip : pyStrip ds = ds := by
    unfold pyStrip
    rw [dropWhile_ws_digits ds hall]
    rw [dropWhile_ws_digits ds.reverse
      (fun x hx => hall x (List.mem_reverse.mp hx))]
    exact List.reverse_reverse ds
  rcases hds : ds with - | ⟨c0, cs⟩
  · exact absurd hds h1
  · rw [← hds]
    have hc0 : c0.isDigit = true := by
      rw [hds] at hall
      exact hall c0 (List.mem_cons_self _ _)
    have hbody : pyIntBody ds = (ds, 1) := by
      unfold pyIntBody
      rw [hstrip, hds]
      rw [if_neg (by
        simp only [List.head?_cons, Option.some.injEq]
        exact digit_ne_of_not_digit hc0 (by decide))]
      rw [if_neg (by
        simp only [List.head?_cons, Option.some.injEq]
        exact digit_ne_of_not_digit hc0 (by decide))]
    unfold pyInt
    rw [hbody]
    rw [if_pos ⟨h1, h2⟩]
    simp

/-- `findIdx` at the first position satisfying the predicate, after a
prefix where it fails. -/
theorem findIdx_append_first {p : Char → Bool} (l : List Char) (c : Char)
    (tl : List Char) (hl : ∀ x ∈ l, p x = false) (hc : p c = true) :
    (l ++ c :: tl).findIdx p = l.length := by
  induction l with
  | nil => simp [List.findIdx_cons, hc]
  | cons a t ih =>
    have ha := hl a (List.mem_cons_self a t)
    simp [List.findIdx_cons, ha,
      ih (fun x hx => hl x (List.mem_cons_of_mem a hx))]

/-- Python `xs[n]` at an in-range natural index. -/
theorem pyIndex_nat (xs : List Json) (n : Nat) (h : n < xs.length) :
    pyIndex xs (n : Int) = Except.ok (xs.getD n Json.null) := by
  have hneg : ¬ ((n : Int) < 0) := by omega
  have htn : ((n : Int)).toNat = n := Int.toNat_natCast n
  simp only [pyIndex, if_neg hneg]
  rw [dif_pos (by constructor <;> omega)]
  congr 1
  rw [List.getD_eq_getElem _ _ (by omega)]
  congr 1

end ManFlow
namespace ManFlow

/-- A bare (bracket-free) segment on a map value descends through the
key's value, a missing key giving `null`. -/
theorem extract_loop_bare_obj (fields : List (String × Json)) (part : String)
    (rest : List String)
    (h : (part.data.contains '[' && part.data.contains ']') = false) :
    extract_loop (Json.obj fields) (part :: rest)
      = extract_loop ((fields.lookup part).getD Json.null) rest := by
  simp only [extract_loop]
  rw [h]
  simp

/-- A bare segment on a non-map value ends the extraction with `null`. -/
theorem extract_loop_bare_nonmap (current : Json) (part : String)
    (rest : List String)
    (h : (part.data.contains '[' && part.data.contains ']') = false)
    (hno : ∀ fields, current ≠ Json.obj fields) :
    extract_loop current (part :: rest) = Except.ok Json.null := by
  simp only [extract_loop]
  rw [h]
  cases current with
  | obj fields => exact absurd rfl (hno fields)
  | null => simp
  | bool b => simp
  | num n => simp
  | str s => simp
  | arr xs => simp

/-- A `null` reached mid-path propagates: any further well-formed segment
returns `null` at once. -/
theorem extract_loop_null (part : String) (rest : List String)
    (h : segment_index_ok part = true) :
    extract_loop Json.null (part :: rest) = Except.ok Json.null := by
  by_cases hb : (part.data.contains '[' && part.data.contains ']') = true
  · unfold segment_index_ok at h
    rw [if_pos hb] at h
    cases hp : pyInt ((part.data.drop (part.data.findIdx (· = '[') + 1)).take
        (part.data.findIdx (· = ']') - (part.data.findIdx (· = '[') + 1))) with
    | error e =>
      rw [hp] at h
      simp at h
    | ok n =>
      simp only [extract_loop]
      rw [hb]
      simp [hp]
  · rw [Bool.not_eq_true] at hb
    simp only [extract_loop]
    rw [hb]
    simp

/-- Processing one `key[n]` segment on a map value: look the key up
(missing key giving an empty sequence), then index into the result when it
is a sequence and the index is in range, else `null`. -/
theorem extract_loop_indexed (fields : List (String × Json)) (key : String)
    (ds : List Char) (rest : List String)
    (hk : key ≠ "") (hk1 : key.data.contains '[' = false)
    (hk2 : key.data.contains ']' = false)
    (hds : ds ≠ []) (hdig : ds.all Char.isDigit = true) :
    extract_loop (Json.obj fields)
        (String.mk (key.data ++ '[' :: (ds ++ [']'])) :: rest)
      = (match (fields.lookup key).getD (Json.arr []) with
         | Json.arr xs =>
           if digitsToNat ds < xs.length then
             extract_loop (xs.getD (digitsToNat ds) Json.null) rest
           else Except.ok Json.null
         | _ => Except.ok Json.null) := by
  set L := key.data ++ '[' :: (ds ++ [']']) with hLdef
  have hc1 : L.contains '[' = true := by
    apply List.elem_iff.mpr
    rw [hLdef]
    exact List.mem_append_right _ (List.mem_cons_self _ _)
  have hc2 : L.contains ']' = true := by
    apply List.elem_iff.mpr
    rw [hLdef]
    exact List.mem_append_right _ (List.mem_cons_of_mem _
      (List.mem_append_right _ (List.mem_cons_self _ _)))
  have hkl : ∀ x ∈ key.data, decide (x = '[') = false := by
    intro x hx
    exact decide_eq_false (fun he => (not_mem_of_contains_false hk1) (he ▸ hx))
  have hkr : ∀ x ∈ key.data, decide (x = ']') = false := by
    intro x hx
    exact decide_eq_false (fun he => (not_mem_of_contains_false hk2) (he ▸ hx))
  have hdsne : ∀ x ∈ ds, decide (x = ']') = false := by
    intro x hx
    have hxd : x.isDigit = true := List.all_eq_true.mp hdig x hx
    exact decide_eq_false (digit_ne_of_not_digit hxd (by decide))
  have hi : L.findIdx (· = '[') = key.data.length := by
    rw [hLdef]
    exact findIdx_append_first key.data '[' (ds ++ [']']) hkl (by simp)
  have hnotr : ∀ x ∈ key.data ++ '[' :: ds, decide (x = ']') = false := by
    intro x hx
    rcases List.mem_append.mp hx with hx1 | hx1
    · exact hkr x hx1
    · rcases List.mem_cons.mp hx1 with hx2 | hx2
      · subst hx2
        decide
      · exact hdsne x hx2
  have hj : L.findIdx (· = ']') = key.data.length + 1 + ds.length := by
    have hL2 : L = (key.data ++ '[' :: ds) ++ ']' :: [] := by
      rw [hLdef]
      simp
    rw [hL2, findIdx_append_first (key.data ++ '[' :: ds) ']' [] hnotr (by simp)]
    simp [List.length_append]
    omega
  have htake : L.take (L.findIdx (· = '[')) = key.data := by
    rw [hi, hLdef]
    exact List.take_left _ _
  have hkeystr : String.mk (L.take (L.findIdx (· = '['))) = key := by
    rw [htake]
  have hdrop : L.drop (L.findIdx (· = '[') + 1) = ds ++ [']'] := by
    rw [hi]
    have hL3 : L = (key.data ++ ['[']) ++ (ds ++ [']']) := by
      rw [hLdef]
      simp
    have hlen : key.data.length + 1 = (key.data ++ ['[']).length := by simp
    rw [hL3, hlen, List.drop_left]
  have hidx : (L.drop (L.findIdx (· = '[') + 1)).take
      (L.findIdx (· = ']') - (L.findIdx (· = '[') + 1)) = ds := by
    rw [hdrop, hi, hj]
    have hsub : key.data.length + 1 + ds.length - (key.data.length + 1)
        = ds.length := by omega
    rw [hsub]
    exact List.take_left _ _
  have hPy : pyInt ((L.drop (L.findIdx (· = '[') + 1)).take
      (L.findIdx (· = ']') - (L.findIdx (· = '[') + 1)))
      = Except.ok (digitsToNat ds : Int) := by
    rw [hidx]
    exact pyInt_digits ds hds hdig
  simp only [extract_loop]
  rw [hc1, hc2]
  simp only [Bool.and_self, if_true]
  rw [hPy]
  simp only []
  rw [hkeystr]
  rw [if_pos hk]
  cases hcur : (fields.lookup key).getD (Json.arr []) with
  | arr xs =>
    dsimp only
    by_cases hlt : digitsToNat ds < xs.length
    · have hlt' : (xs.length : Int) > (digitsToNat ds : Int) := by
        exact_mod_cast hlt
      rw [if_pos hlt', pyIndex_nat xs (digitsToNat ds) hlt]
      rw [if_pos hlt]
    · have hlt' : ¬ ((xs.length : Int) > (digitsToNat ds : Int)) := by
        intro hcontra
        exact hlt (by exact_mod_cast hcontra)
      rw [if_neg hlt', if_neg hlt]
  | null => rfl
  | bool b => rfl
  | num n => rfl
  | str s => rfl
  | obj fs => rfl

end ManFlow
namespace ManFlow

/-- C7: `extract_json_path` traverses the dot-delimited path: a bare
segment descends into a map (a missing key giving `null`), a `key[n]`
segment descends into the named key and then into index `n` of the
resulting sequence (missing key giving an empty sequence, out-of-range or
non-sequence giving `null`), a segment applied to a non-map value yields
`null` immediately, a `null` reached mid-path short-circuits the rest to
`null` without error, and the spec's three concrete examples hold. -/
theorem json_path_extraction_spec :
    extract_json_path
        (Json.obj [("a", Json.obj [("b",
          Json.arr [Json.obj [("c", Json.num 1)]])])])
        "a.b[0].c" = Except.ok (Json.num 1)
    ∧ extract_json_path (Json.obj []) "a.b" = Except.ok Json.null
    ∧ extract_json_path Json.null "a" = Except.ok Json.null
    ∧ (∀ path : String, extract_json_path Json.null path = Except.ok Json.null)
    ∧ (∀ (fields : List (String × Json)) (part : String) (rest : List String),
        (part.data.contains '[' && part.data.contains ']') = false →
        extract_loop (Json.obj fields) (part :: rest)
          = extract_loop ((fields.lookup part).getD Json.null) rest)
    ∧ (∀ (current : Json) (part : String) (rest : List String),
        (part.data.contains '[' && part.data.contains ']') = false →
        (∀ fields, current ≠ Json.obj fields) →
        extract_loop current (part :: rest) = Except.ok Json.null)
    ∧ extract_loop Json.null [] = Except.ok Json.null
    ∧ (∀ (part : String) (rest : List String),
        segment_index_ok part = true →
        extract_loop Json.null (part :: rest) = Except.ok Json.null)
    ∧ (∀ (fields : List (String × Json)) (key : String) (ds : List Char)
        (rest : List String),
        key ≠ "" → key.data.contains '[' = false →
        key.data.contains ']' = false →
        ds ≠ [] → ds.all Char.isDigit = true →
        extract_loop (Json.obj fields)
            (String.mk (key.data ++ '[' :: (ds ++ [']'])) :: rest)
          = (match (fields.lookup key).getD (Json.arr []) with
             | Json.arr xs =>
               if digitsToNat ds < xs.length then
                 extract_loop (xs.getD (digitsToNat ds) Json.null) rest
               else Except.ok Json.null
             | _ => Except.ok Json.null)) := by
  refine ⟨by rfl, by rfl, by rfl, ?_, extract_loop_bare_obj,
    extract_loop_bare_nonmap, by rfl, extract_loop_null, extract_loop_indexed⟩
  intro path
  unfold extract_json_path
  simp [Json.beq]

end ManFlow
